import Mathlib

/-!
# Verification of the parallax-mapping shader and the camera module

Shallow embedding of `src/Sandbox/parallax_mapping.fs` (the steep parallax
mapping fragment shader) over exact rationals, and of `src/Sandbox/Camera.h`
(the free-fly camera) over the reals, together with proofs of the
testable properties stated in the design document.
-/

set_option autoImplicit false

/-! ## Part 1: the parallax-mapping fragment shader (`parallax_mapping.fs`)

GLSL `vec2` texture coordinates are modelled as pairs of exact rationals.
-/

/-- A GLSL `vec2` of exact rationals (texture coordinates, shift vectors). -/
structure Vec2q where
  x : ℚ
  y : ℚ
deriving DecidableEq, Repr

/-- The depth texture `depthMap`: GLSL `texture(depthMap, uv).r` on a
single-channel normalized texture returns a scalar in `[0,1]` at every
coordinate, which is the invariant bundled here. -/
structure HeightField where
  sample : Vec2q → ℚ
  sample_nonneg : ∀ p, 0 ≤ sample p
  sample_le_one : ∀ p, sample p ≤ 1

/-- The state of the layer-marching `while` loop of `ParallaxMapping` when it
exits, together with the number of iterations the loop body executed. -/
structure MarchResult where
  currentTexCoords : Vec2q
  currentLayerDepth : ℚ
  currentDepthMapValue : ℚ
  iters : Nat
deriving DecidableEq, Repr

/-- The `while(currentLayerDepth < currentDepthMapValue)` loop of
`ParallaxMapping` (lines 33-41 of the shader).  Each iteration shifts the
texture coordinates by `deltaTexCoords`, resamples the depth map at the
shifted coordinates, and advances `currentLayerDepth` by `layerDepth`.
The loop has no bound in the source, so the embedding carries `fuel`;
`none` means the fuel was exhausted while the loop condition still held. -/
def marchLoop (sample : Vec2q → ℚ) (deltaTexCoords : Vec2q) (layerDepth : ℚ) :
    Nat → Vec2q → ℚ → ℚ → Option MarchResult
  | 0, currentTexCoords, currentLayerDepth, currentDepthMapValue =>
      if currentLayerDepth < currentDepthMapValue then none
      else some ⟨currentTexCoords, currentLayerDepth, currentDepthMapValue, 0⟩
  | fuel + 1, currentTexCoords, currentLayerDepth, currentDepthMapValue =>
      if currentLayerDepth < currentDepthMapValue then
        match marchLoop sample deltaTexCoords layerDepth fuel
            ⟨currentTexCoords.x - deltaTexCoords.x, currentTexCoords.y - deltaTexCoords.y⟩
            (currentLayerDepth + layerDepth)
            (sample ⟨currentTexCoords.x - deltaTexCoords.x,
                     currentTexCoords.y - deltaTexCoords.y⟩) with
        | none => none
        | some r => some ⟨r.currentTexCoords, r.currentLayerDepth,
                          r.currentDepthMapValue, r.iters + 1⟩
      else some ⟨currentTexCoords, currentLayerDepth, currentDepthMapValue, 0⟩

/-- The vector `P = viewDir.xy / viewDir.z * heightScale` of line 27,
with Lean's total rational division standing in for GLSL float division. -/
def shiftP (viewDir : ℚ × ℚ × ℚ) (heightScale : ℚ) : Vec2q :=
  ⟨viewDir.1 / viewDir.2.2 * heightScale, viewDir.2.1 / viewDir.2.2 * heightScale⟩

/-- `deltaTexCoords = P / numLayers` of line 28, with `numLayers = 10`. -/
def deltaTexCoordsOf (viewDir : ℚ × ℚ × ℚ) (heightScale : ℚ) : Vec2q :=
  ⟨(shiftP viewDir heightScale).x / 10, (shiftP viewDir heightScale).y / 10⟩

/-- Guarded embedding of line 27, `vec2 P = viewDir.xy / viewDir.z * heightScale;`:
total division is replaced by division that reports the zero-divisor error
branch as `none`.  The source contains no guard or clamp on `viewDir.z`, so the
only error condition is `viewDir.z = 0` itself. -/
def shiftPguarded (viewDir : ℚ × ℚ × ℚ) (heightScale : ℚ) : Option Vec2q :=
  if viewDir.2.2 = 0 then none
  else some ⟨viewDir.1 / viewDir.2.2 * heightScale, viewDir.2.1 / viewDir.2.2 * heightScale⟩

/-- `ParallaxMapping(texCoords, viewDir)` (lines 18-55): march through the
depth layers and then linearly interpolate between the coordinates before and
after the detected collision.  `numLayers = 10`, `layerDepth = 1/10`,
and fuel `10` suffices for the loop because depth samples lie in `[0,1]`
(proved below); `none` = fuel exhaustion, shown unreachable. -/
def ParallaxMapping (hf : HeightField) (heightScale : ℚ) (texCoords : Vec2q)
    (viewDir : ℚ × ℚ × ℚ) : Option Vec2q :=
  let layerDepth : ℚ := 1 / 10
  let deltaTexCoords := deltaTexCoordsOf viewDir heightScale
  match marchLoop hf.sample deltaTexCoords layerDepth 10 texCoords 0 (hf.sample texCoords) with
  | none => none
  | some r =>
      let prevTexCoords : Vec2q :=
        ⟨r.currentTexCoords.x + deltaTexCoords.x, r.currentTexCoords.y + deltaTexCoords.y⟩
      let afterDepth := r.currentDepthMapValue - r.currentLayerDepth
      let beforeDepth := hf.sample prevTexCoords - r.currentLayerDepth + layerDepth
      let weight := afterDepth / (afterDepth - beforeDepth)
      some ⟨prevTexCoords.x * weight + r.currentTexCoords.x * (1 - weight),
            prevTexCoords.y * weight + r.currentTexCoords.y * (1 - weight)⟩

/-- The iteration count of the layer-marching loop as invoked by
`ParallaxMapping` on the given inputs. -/
def ParallaxIters (hf : HeightField) (heightScale : ℚ) (texCoords : Vec2q)
    (viewDir : ℚ × ℚ × ℚ) : Option Nat :=
  (marchLoop hf.sample (deltaTexCoordsOf viewDir heightScale) (1 / 10) 10
    texCoords 0 (hf.sample texCoords)).map MarchResult.iters

/-- Outcome of the fragment shader `main`: either the fragment is discarded, or
it is shaded using the parallax-corrected texture coordinate for the diffuse
and normal lookups. -/
inductive FragResult where
  | discard : FragResult
  | shade : Vec2q → FragResult
deriving DecidableEq

/-- The texture-coordinate / discard part of `main` (lines 57-70): run
`ParallaxMapping`, discard when a component of the result leaves `[0,1]`
(`texCoords.x > 1.0 || texCoords.y > 1.0 || texCoords.x < 0.0 || texCoords.y < 0.0`),
otherwise shade with the corrected coordinate. -/
def shaderMain (hf : HeightField) (heightScale : ℚ) (texCoords0 : Vec2q)
    (viewDir : ℚ × ℚ × ℚ) : Option FragResult :=
  match ParallaxMapping hf heightScale texCoords0 viewDir with
  | none => none
  | some texCoords =>
      if texCoords.x > 1 ∨ texCoords.y > 1 ∨ texCoords.x < 0 ∨ texCoords.y < 0 then
        some FragResult.discard
      else
        some (FragResult.shade texCoords)

/-- A constant height field with value `h ∈ [0,1]` everywhere. -/
def constHF (h : ℚ) (h0 : 0 ≤ h) (h1 : h ≤ 1) : HeightField :=
  ⟨fun _ => h, fun _ => h0, fun _ => h1⟩

/-! ### Lemmas about the layer-marching loop -/

/-- On a constant height field of value `h`, starting at layer depth `k/10`,
the loop performs exactly `⌈h * 10⌉₊ - k` iterations (given enough fuel). -/
theorem marchLoop_const (h Δx Δy : ℚ) :
    ∀ (fuel : Nat) (k : Nat) (tc : Vec2q), 10 * h ≤ (k : ℚ) + (fuel : ℚ) →
      ∃ r : MarchResult,
        marchLoop (fun _ => h) ⟨Δx, Δy⟩ (1 / 10) fuel tc ((k : ℚ) / 10) h = some r ∧
          r.iters = ⌈h * 10⌉₊ - k := by
  intro fuel
  induction fuel with
  | zero =>
    intro k tc hb
    have hk : h ≤ (k : ℚ) / 10 := by
      rw [le_div_iff (by norm_num : (0 : ℚ) < 10)]
      push_cast at hb
      linarith
    have hcond : ¬ ((k : ℚ) / 10 < h) := not_lt.mpr hk
    refine ⟨⟨tc, (k : ℚ) / 10, h, 0⟩, by simp [marchLoop, hcond], ?_⟩
    have hle : ⌈h * 10⌉₊ ≤ k := Nat.ceil_le.mpr ((le_div_iff (by norm_num)).mp hk)
    simp [Nat.sub_eq_zero_of_le hle]
  | succ fuel ih =>
    intro k tc hb
    by_cases hcond : (k : ℚ) / 10 < h
    · have hcast : (k : ℚ) / 10 + 1 / 10 = ((k + 1 : ℕ) : ℚ) / 10 := by push_cast; ring
      obtain ⟨r, hr, hit⟩ := ih (k + 1) ⟨tc.x - Δx, tc.y - Δy⟩ (by push_cast at hb ⊢; linarith)
      refine ⟨⟨r.currentTexCoords, r.currentLayerDepth, r.currentDepthMapValue,
        r.iters + 1⟩, ?_, ?_⟩
      · simp only [marchLoop, if_pos hcond, hcast, hr]
      · have hklt : k < ⌈h * 10⌉₊ := by
          refine Nat.lt_ceil.mpr ?_
          rw [div_lt_iff (by norm_num : (0 : ℚ) < 10)] at hcond
          linarith
        dsimp only
        omega
    · refine ⟨⟨tc, (k : ℚ) / 10, h, 0⟩, by simp [marchLoop, hcond], ?_⟩
      have hle : ⌈h * 10⌉₊ ≤ k := by
        refine Nat.ceil_le.mpr ?_
        rw [not_lt, le_div_iff (by norm_num : (0 : ℚ) < 10)] at hcond
        linarith
      simp [Nat.sub_eq_zero_of_le hle]

/-- With depth samples bounded by `1`, the loop exits within its fuel as soon
as `cLD + fuel * (1/10)` reaches `1`: the while loop terminates, performing at
most `fuel` iterations. -/
theorem marchLoop_some (sample : Vec2q → ℚ) (Δ : Vec2q)
    (hsample : ∀ p, sample p ≤ 1) :
    ∀ (fuel : Nat) (tc : Vec2q) (cLD cDMV : ℚ), cDMV ≤ 1 →
      1 ≤ cLD + (fuel : ℚ) * (1 / 10) →
      ∃ r, marchLoop sample Δ (1 / 10) fuel tc cLD cDMV = some r ∧ r.iters ≤ fuel := by
  intro fuel
  induction fuel with
  | zero =>
    intro tc cLD cDMV hD hb
    have hcond : ¬ (cLD < cDMV) := by push_cast at hb; exact not_lt.mpr (by linarith)
    exact ⟨⟨tc, cLD, cDMV, 0⟩, by simp [marchLoop, hcond], le_refl 0⟩
  | succ fuel ih =>
    intro tc cLD cDMV hD hb
    by_cases hcond : cLD < cDMV
    · obtain ⟨r, hr, hit⟩ := ih ⟨tc.x - Δ.x, tc.y - Δ.y⟩ (cLD + 1 / 10)
        (sample ⟨tc.x - Δ.x, tc.y - Δ.y⟩)
        (hsample _) (by push_cast at hb ⊢; linarith)
      refine ⟨⟨r.currentTexCoords, r.currentLayerDepth, r.currentDepthMapValue,
        r.iters + 1⟩, ?_, by dsimp only; omega⟩
      simp only [marchLoop, if_pos hcond, hr]
    · exact ⟨⟨tc, cLD, cDMV, 0⟩, by simp [marchLoop, hcond], Nat.zero_le _⟩

/-- With a zero shift vector the loop never moves the texture coordinates:
any result it returns has the starting coordinates and their depth sample. -/
theorem marchLoop_zero_delta (sample : Vec2q → ℚ) :
    ∀ (fuel : Nat) (tc : Vec2q) (cLD : ℚ) (r : MarchResult),
      marchLoop sample ⟨0, 0⟩ (1 / 10) fuel tc cLD (sample tc) = some r →
      r.currentTexCoords = tc ∧ r.currentDepthMapValue = sample tc := by
  intro fuel
  induction fuel with
  | zero =>
    intro tc cLD r hr
    by_cases hcond : cLD < sample tc
    · simp [marchLoop, hcond] at hr
    · simp [marchLoop, hcond] at hr
      simp [← hr]
  | succ fuel ih =>
    intro tc cLD r hr
    by_cases hcond : cLD < sample tc
    · simp only [marchLoop, if_pos hcond, sub_zero] at hr
      rcases hmatch : marchLoop sample ⟨0, 0⟩ (1 / 10) fuel ⟨tc.x, tc.y⟩ (cLD + 1 / 10)
          (sample ⟨tc.x, tc.y⟩) with _ | r'
      · rw [hmatch] at hr; simp at hr
      · rw [hmatch] at hr
        simp at hr
        have := ih ⟨tc.x, tc.y⟩ (cLD + 1 / 10) r' hmatch
        simp [← hr]
        exact this
    · simp [marchLoop, hcond] at hr
      simp [← hr]

/-! ### Claim theorems for the parallax shader -/

/-- C1: on a constant height field of value `h ∈ [0,1]`, for any `texCoords`
and any `viewDir` with positive z-component, the layer-marching loop of
`ParallaxMapping` (with `numLayers = 10`) terminates after exactly
`⌈h * 10⌉₊` iterations; in particular `h = 0` gives `0` iterations and
`h = 1` gives all `10`. -/
theorem parallax_const_iters (h : ℚ) (h0 : 0 ≤ h) (h1 : h ≤ 1)
    (heightScale : ℚ) (texCoords : Vec2q) (viewDir : ℚ × ℚ × ℚ)
    (hz : 0 < viewDir.2.2) :
    ParallaxIters (constHF h h0 h1) heightScale texCoords viewDir = some ⌈h * 10⌉₊ := by
  obtain ⟨r, hr, hit⟩ := marchLoop_const h (deltaTexCoordsOf viewDir heightScale).x
    (deltaTexCoordsOf viewDir heightScale).y 10 0 texCoords (by push_cast; linarith)
  have h00 : ((0 : ℕ) : ℚ) / 10 = 0 := by norm_num
  rw [h00] at hr
  show (marchLoop (fun _ => h)
      ⟨(deltaTexCoordsOf viewDir heightScale).x, (deltaTexCoordsOf viewDir heightScale).y⟩
      (1 / 10) 10 texCoords 0 h).map MarchResult.iters = some ⌈h * 10⌉₊
  rw [hr]
  simp [hit]

/-- Witness for `parallax_const_iters` at `h = 1/2`. -/
theorem parallax_const_iters_witness :
    0 ≤ (1/2 : ℚ) ∧ (1/2 : ℚ) ≤ 1 ∧ (0 : ℚ) < 1 ∧
      ParallaxIters (constHF (1/2) (by norm_num) (by norm_num)) (1/10) ⟨0, 0⟩ (0, 0, 1)
        = some ⌈(1/2 : ℚ) * 10⌉₊ :=
  ⟨by norm_num, by norm_num, by norm_num,
    parallax_const_iters (1/2) (by norm_num) (by norm_num) (1/10) ⟨0, 0⟩ (0, 0, 1)
      (by norm_num)⟩

/-- C2: with `heightScale = 0` the per-layer shift `deltaTexCoords` is the
zero vector and `ParallaxMapping` returns the input coordinate unchanged,
whatever the height field. -/
theorem parallax_heightScale_zero (hf : HeightField) (texCoords : Vec2q)
    (viewDir : ℚ × ℚ × ℚ) :
    deltaTexCoordsOf viewDir 0 = ⟨0, 0⟩ ∧
      ParallaxMapping hf 0 texCoords viewDir = some texCoords := by
  have hΔ : deltaTexCoordsOf viewDir 0 = ⟨0, 0⟩ := by
    simp [deltaTexCoordsOf, shiftP]
  refine ⟨hΔ, ?_⟩
  obtain ⟨r, hr, -⟩ := marchLoop_some hf.sample ⟨0, 0⟩ hf.sample_le_one 10 texCoords 0
    (hf.sample texCoords) (hf.sample_le_one _) (by norm_num)
  obtain ⟨hctc, hcdmv⟩ := marchLoop_zero_delta hf.sample 10 texCoords 0 r hr
  obtain ⟨tx, ty⟩ := texCoords
  simp only [ParallaxMapping, hΔ]
  rw [hr]
  simp only [hctc, add_zero, Option.some.injEq, Vec2q.mk.injEq]
  constructor <;> ring

/-- C3: for every height field (whose samples lie in `[0,1]` by the texture
invariant) and every input, the while loop of `ParallaxMapping` terminates
within `numLayers = 10` iterations, so `ParallaxMapping` itself is total. -/
theorem parallax_march_terminates (hf : HeightField) (heightScale : ℚ)
    (texCoords : Vec2q) (viewDir : ℚ × ℚ × ℚ) :
    (∃ r, marchLoop hf.sample (deltaTexCoordsOf viewDir heightScale) (1 / 10) 10
        texCoords 0 (hf.sample texCoords) = some r ∧ r.iters ≤ 10) ∧
      (ParallaxMapping hf heightScale texCoords viewDir).isSome := by
  obtain ⟨r, hr, hit⟩ := marchLoop_some hf.sample (deltaTexCoordsOf viewDir heightScale)
    hf.sample_le_one 10 texCoords 0 (hf.sample texCoords) (hf.sample_le_one _) (by norm_num)
  refine ⟨⟨r, hr, hit⟩, ?_⟩
  simp only [ParallaxMapping]
  rw [hr]
  rfl

/-- C4: the fragment is discarded exactly when the coordinate returned by
`ParallaxMapping` has a component strictly below `0` or strictly above `1`;
coordinates inside `[0,1]²` are never rejected and feed the subsequent
diffuse/normal lookups. -/
theorem fragment_discard_iff (hf : HeightField) (heightScale : ℚ) (texCoords0 : Vec2q)
    (viewDir : ℚ × ℚ × ℚ) (tc : Vec2q)
    (hpm : ParallaxMapping hf heightScale texCoords0 viewDir = some tc) :
    (shaderMain hf heightScale texCoords0 viewDir = some FragResult.discard ↔
      (tc.x < 0 ∨ 1 < tc.x ∨ tc.y < 0 ∨ 1 < tc.y)) ∧
      (0 ≤ tc.x ∧ tc.x ≤ 1 ∧ 0 ≤ tc.y ∧ tc.y ≤ 1 →
        shaderMain hf heightScale texCoords0 viewDir = some (FragResult.shade tc)) := by
  have hmain : shaderMain hf heightScale texCoords0 viewDir =
      if tc.x > 1 ∨ tc.y > 1 ∨ tc.x < 0 ∨ tc.y < 0 then some FragResult.discard
      else some (FragResult.shade tc) := by
    unfold shaderMain
    rw [hpm]
  rw [hmain]
  by_cases hout : tc.x > 1 ∨ tc.y > 1 ∨ tc.x < 0 ∨ tc.y < 0
  · rw [if_pos hout]
    refine ⟨⟨fun _ => by tauto, fun _ => rfl⟩, fun hin => ?_⟩
    obtain ⟨h1, h2, h3, h4⟩ := hin
    rcases hout with h | h | h | h <;> exact absurd h (by linarith)
  · rw [if_neg hout]
    push_neg at hout
    obtain ⟨h1, h2, h3, h4⟩ := hout
    refine ⟨⟨fun hds => ?_, fun hor => ?_⟩, fun _ => rfl⟩
    · exact absurd hds (by simp)
    · rcases hor with h | h | h | h <;> linarith

/-- Witness for `fragment_discard_iff`: the constant-zero height field with
`heightScale = 0` maps `(1/2, 1/2)` to itself, which is inside `[0,1]²` and
is therefore shaded, not discarded. -/
theorem fragment_discard_iff_witness :
    ParallaxMapping (constHF 0 le_rfl zero_le_one) 0 ⟨1/2, 1/2⟩ (0, 0, 1)
        = some ⟨1/2, 1/2⟩ ∧
      shaderMain (constHF 0 le_rfl zero_le_one) 0 ⟨1/2, 1/2⟩ (0, 0, 1)
        = some (FragResult.shade ⟨1/2, 1/2⟩) :=
  have hpm : ParallaxMapping (constHF 0 le_rfl zero_le_one) 0 ⟨1/2, 1/2⟩ (0, 0, 1)
      = some ⟨1/2, 1/2⟩ := by
    norm_num [ParallaxMapping, marchLoop, constHF, deltaTexCoordsOf, shiftP]
  ⟨hpm, (fragment_discard_iff (constHF 0 le_rfl zero_le_one) 0 ⟨1/2, 1/2⟩ (0, 0, 1)
    ⟨1/2, 1/2⟩ hpm).2 (by norm_num)⟩

/-- C5: `ParallaxMapping` has no guard on `viewDir.z`: in the guarded
embedding of `P = viewDir.xy / viewDir.z * heightScale`, the division error
branch is hit exactly on inputs with `viewDir.z = 0` (concretely at
`viewDir = (1,0,0)`), and for `viewDir.z ≠ 0` the guarded computation agrees
with the total one used by `ParallaxMapping`. -/
theorem viewDir_z_division_unguarded :
    shiftPguarded (1, 0, 0) (1 / 10) = none ∧
      ∀ (viewDir : ℚ × ℚ × ℚ) (heightScale : ℚ), viewDir.2.2 ≠ 0 →
        shiftPguarded viewDir heightScale = some (shiftP viewDir heightScale) := by
  refine ⟨by decide, fun viewDir heightScale hz => ?_⟩
  simp [shiftPguarded, shiftP, hz]

/-- Witness for `viewDir_z_division_unguarded` at `viewDir = (0,0,1)`. -/
theorem viewDir_z_division_unguarded_witness :
    ((0 : ℚ), (0 : ℚ), (1 : ℚ)).2.2 ≠ 0 ∧
      shiftPguarded (0, 0, 1) (1 / 10) = some (shiftP (0, 0, 1) (1 / 10)) :=
  ⟨by norm_num, viewDir_z_division_unguarded.2 (0, 0, 1) (1 / 10) (by norm_num)⟩

/-! ## Part 2: the camera (`Camera.h`)

`glm::vec3` / `glm::mat4` float vectors and matrices are modelled over the
reals; GLSL/glm trigonometry becomes `Real.cos` / `Real.sin`. -/

/-- A `glm::vec3` over the reals. -/
structure Vec3 where
  x : ℝ
  y : ℝ
  z : ℝ

namespace Vec3

/-- Componentwise vector addition (`glm` `operator+`). -/
def add (a b : Vec3) : Vec3 := ⟨a.x + b.x, a.y + b.y, a.z + b.z⟩

/-- Componentwise vector subtraction (`glm` `operator-`). -/
def sub (a b : Vec3) : Vec3 := ⟨a.x - b.x, a.y - b.y, a.z - b.z⟩

/-- Scalar multiple (`glm` `vec * scalar`). -/
def smul (c : ℝ) (a : Vec3) : Vec3 := ⟨c * a.x, c * a.y, c * a.z⟩

/-- `glm::dot`. -/
def dot (a b : Vec3) : ℝ := a.x * b.x + a.y * b.y + a.z * b.z

/-- `glm::cross`. -/
def cross (a b : Vec3) : Vec3 :=
  ⟨a.y * b.z - a.z * b.y, a.z * b.x - a.x * b.z, a.x * b.y - a.y * b.x⟩

/-- Squared Euclidean norm. -/
def normSq (a : Vec3) : ℝ := dot a a

/-- `glm::length`. -/
noncomputable def length (a : Vec3) : ℝ := Real.sqrt (normSq a)

/-- `glm::normalize`: `v / length(v)` (undefined — here a junk zero vector —
on the zero vector, as in glm). -/
noncomputable def normalize (a : Vec3) : Vec3 := smul (1 / length a) a

end Vec3

/-- `glm::radians`: degrees to radians. -/
noncomputable def radians (degrees : ℝ) : ℝ := degrees * (Real.pi / 180)

/-- The `Camera_Movement` input abstraction enum. -/
inductive Camera_Movement where
  | FORWARD
  | BACKWARD
  | LEFT
  | RIGHT
  | UP
  | DOWN
deriving DecidableEq

/-- Default camera yaw. -/
def YAW : ℝ := -90

/-- Default camera pitch. -/
def PITCH : ℝ := 0

/-- Default movement speed. -/
def SPEED : ℝ := 2.5

/-- Default mouse sensitivity. -/
def SENSITIVITY : ℝ := 0.1

/-- Default zoom (field of view, degrees). -/
def ZOOM : ℝ := 45

/-- The `Camera` class state. -/
structure Camera where
  Position : Vec3
  Front : Vec3
  Up : Vec3
  Right : Vec3
  WorldUp : Vec3
  Yaw : ℝ
  Pitch : ℝ
  MovementSpeed : ℝ
  MouseSensitivity : ℝ
  Zoom : ℝ

/-- The raw front vector computed inside `updateCameraVectors` from the Euler
angles: `(cos(yaw)·cos(pitch), sin(pitch), sin(yaw)·cos(pitch))`. -/
noncomputable def frontVector (yaw pitch : ℝ) : Vec3 :=
  ⟨Real.cos (radians yaw) * Real.cos (radians pitch),
   Real.sin (radians pitch),
   Real.sin (radians yaw) * Real.cos (radians pitch)⟩

/-- `Camera::updateCameraVectors` (lines 184-195): recompute `Front` from
yaw/pitch, then `Right = normalize(cross(Front, WorldUp))` and
`Up = normalize(cross(Right, Front))`. -/
noncomputable def updateCameraVectors (cam : Camera) : Camera :=
  let Front := Vec3.normalize (frontVector cam.Yaw cam.Pitch)
  let Right := Vec3.normalize (Vec3.cross Front cam.WorldUp)
  let Up := Vec3.normalize (Vec3.cross Right Front)
  { cam with Front := Front, Right := Right, Up := Up }

/-- The `Camera` constructor (lines 45-52): `Right` and `Up` are uninitialized
in the C++ until `updateCameraVectors` overwrites them, so their seed values
here are irrelevant placeholders. -/
noncomputable def mkCamera (position up : Vec3) (yaw pitch : ℝ) : Camera :=
  updateCameraVectors
    { Position := position, Front := ⟨0, 0, -1⟩, Up := ⟨0, 0, 0⟩, Right := ⟨0, 0, 0⟩,
      WorldUp := up, Yaw := yaw, Pitch := pitch,
      MovementSpeed := SPEED, MouseSensitivity := SENSITIVITY, Zoom := ZOOM }

/-- `Camera::ProcessKeyboard` (lines 129-148).  The six direction tests of the
source are mutually exclusive, hence one `match`; note that the `FORWARD` and
`BACKWARD` branches apply `Front * velocity` twice, exactly as the two
consecutive `Position += / -=` statements of the source do. -/
noncomputable def ProcessKeyboard (cam : Camera) (direction : Camera_Movement)
    (deltaTime : ℝ) : Camera :=
  let velocity := cam.MovementSpeed * deltaTime
  let Position :=
    match direction with
    | Camera_Movement.FORWARD =>
        Vec3.add (Vec3.add cam.Position (Vec3.smul velocity cam.Front))
          (Vec3.smul velocity cam.Front)
    | Camera_Movement.BACKWARD =>
        Vec3.sub (Vec3.sub cam.Position (Vec3.smul velocity cam.Front))
          (Vec3.smul velocity cam.Front)
    | Camera_Movement.LEFT => Vec3.sub cam.Position (Vec3.smul velocity cam.Right)
    | Camera_Movement.RIGHT => Vec3.add cam.Position (Vec3.smul velocity cam.Right)
    | Camera_Movement.UP => Vec3.add cam.Position (Vec3.smul velocity cam.Up)
    | Camera_Movement.DOWN => Vec3.sub cam.Position (Vec3.smul velocity cam.Up)
  { cam with Position := Position }

/-- `Camera::ProcessMouseMovement` (lines 151-170): scale the offsets by the
sensitivity, add to yaw/pitch, clamp pitch into `[-89, 89]` when
`constrainPitch` is set, then recompute the basis vectors. -/
noncomputable def ProcessMouseMovement (cam : Camera) (xoffset yoffset : ℝ)
    (constrainPitch : Bool) : Camera :=
  let xoffset := xoffset * cam.MouseSensitivity
  let yoffset := yoffset * cam.MouseSensitivity
  let Yaw := cam.Yaw + xoffset
  let Pitch := cam.Pitch + yoffset
  let Pitch :=
    if constrainPitch then
      let Pitch := if Pitch > 89 then (89 : ℝ) else Pitch
      if Pitch < -89 then (-89 : ℝ) else Pitch
    else Pitch
  updateCameraVectors { cam with Yaw := Yaw, Pitch := Pitch }

/-- `Camera::ProcessMouseScroll` (lines 173-180): subtract the offset from
`Zoom` and clamp into `[1, 45]`. -/
noncomputable def ProcessMouseScroll (cam : Camera) (yoffset : ℝ) : Camera :=
  let Zoom := cam.Zoom - yoffset
  let Zoom := if Zoom < 1 then (1 : ℝ) else Zoom
  let Zoom := if Zoom > 45 then (45 : ℝ) else Zoom
  { cam with Zoom := Zoom }

/-- `Camera::calc_lookat` (lines 63-87): manual look-at construction,
`rotation * translation`, where the translation holds the negated position in
its last column (glm is column-major: `translation[3][i] = -position[i]`) and
the rotation rows are the right/up/direction basis vectors. -/
noncomputable def calc_lookat (position target worldup : Vec3) :
    Matrix (Fin 4) (Fin 4) ℝ :=
  let cameraDirection := Vec3.normalize (Vec3.sub position target)
  let cameraRight := Vec3.normalize (Vec3.cross worldup cameraDirection)
  let cameraUp := Vec3.cross cameraDirection cameraRight
  let translation : Matrix (Fin 4) (Fin 4) ℝ :=
    !![1, 0, 0, -position.x;
       0, 1, 0, -position.y;
       0, 0, 1, -position.z;
       0, 0, 0, 1]
  let rotation : Matrix (Fin 4) (Fin 4) ℝ :=
    !![cameraRight.x, cameraRight.y, cameraRight.z, 0;
       cameraUp.x, cameraUp.y, cameraUp.z, 0;
       cameraDirection.x, cameraDirection.y, cameraDirection.z, 0;
       0, 0, 0, 1]
  rotation * translation

/-- `Camera::GetViewMatrix` (lines 116-120). -/
noncomputable def GetViewMatrix (cam : Camera) : Matrix (Fin 4) (Fin 4) ℝ :=
  calc_lookat cam.Position (Vec3.add cam.Position cam.Front) cam.Up

/-! ### Vector algebra lemmas -/

namespace Vec3

theorem dot_comm (a b : Vec3) : dot a b = dot b a := by
  simp only [dot]; ring

theorem dot_cross_left (a b : Vec3) : dot (cross a b) a = 0 := by
  simp only [dot, cross]; ring

theorem dot_cross_right (a b : Vec3) : dot (cross a b) b = 0 := by
  simp only [dot, cross]; ring

theorem normSq_cross (a b : Vec3) :
    normSq (cross a b) = normSq a * normSq b - (dot a b) ^ 2 := by
  simp only [normSq, dot, cross]; ring

theorem normSq_nonneg (a : Vec3) : 0 ≤ normSq a := by
  simp only [normSq, dot]
  nlinarith [mul_self_nonneg a.x, mul_self_nonneg a.y, mul_self_nonneg a.z]

theorem normSq_eq_zero_iff (a : Vec3) : normSq a = 0 ↔ a = ⟨0, 0, 0⟩ := by
  constructor
  · intro h
    simp only [normSq, dot] at h
    have hx : a.x * a.x = 0 := by nlinarith [mul_self_nonneg a.x, mul_self_nonneg a.y, mul_self_nonneg a.z]
    have hy : a.y * a.y = 0 := by nlinarith [mul_self_nonneg a.x, mul_self_nonneg a.y, mul_self_nonneg a.z]
    have hz : a.z * a.z = 0 := by nlinarith [mul_self_nonneg a.x, mul_self_nonneg a.y, mul_self_nonneg a.z]
    cases a
    simp only [Vec3.mk.injEq]
    exact ⟨mul_self_eq_zero.mp hx, mul_self_eq_zero.mp hy, mul_self_eq_zero.mp hz⟩
  · intro h
    subst h
    simp [normSq, dot]

theorem normSq_smul (c : ℝ) (a : Vec3) : normSq (smul c a) = c ^ 2 * normSq a := by
  simp only [normSq, dot, smul]; ring

theorem dot_smul_left (c : ℝ) (a b : Vec3) : dot (smul c a) b = c * dot a b := by
  simp only [dot, smul]; ring

theorem dot_smul_right (c : ℝ) (a b : Vec3) : dot a (smul c b) = c * dot a b := by
  simp only [dot, smul]; ring

theorem smul_one (a : Vec3) : smul 1 a = a := by
  simp [smul]

theorem normSq_normalize (a : Vec3) (h : normSq a ≠ 0) : normSq (normalize a) = 1 := by
  have h0 : 0 ≤ normSq a := normSq_nonneg a
  have hsq : Real.sqrt (normSq a) ^ 2 = normSq a := Real.sq_sqrt h0
  have hs : Real.sqrt (normSq a) ≠ 0 := by
    intro hzero
    apply h
    rw [← hsq, hzero]
    norm_num
  simp only [normalize, normSq_smul, length]
  field_simp

theorem normalize_of_normSq_one (a : Vec3) (h : normSq a = 1) : normalize a = a := by
  simp only [normalize, length, h, Real.sqrt_one]
  norm_num
  exact smul_one a

theorem normalize_eq_smul (a : Vec3) : normalize a = smul (1 / length a) a := rfl

theorem cross_smul_left (c : ℝ) (a b : Vec3) : cross (smul c a) b = smul c (cross a b) := by
  simp only [cross, smul]
  cases a
  cases b
  simp only [Vec3.mk.injEq]
  refine ⟨by ring, by ring, by ring⟩

end Vec3

/-! ### Claim theorems for the camera -/

/-- C10: the view matrix `GetViewMatrix` (built as `rotation * translation`)
maps the camera's own position, as a homogeneous point with `w = 1`, to the
origin of view space. -/
theorem view_matrix_maps_position_to_origin (cam : Camera) :
    (GetViewMatrix cam).mulVec ![cam.Position.x, cam.Position.y, cam.Position.z, 1] =
      ![0, 0, 0, 1] := by
  unfold GetViewMatrix calc_lookat
  funext i
  fin_cases i <;>
    simp [Matrix.mulVec, Matrix.mul_apply, Matrix.dotProduct, Fin.sum_univ_four] <;> ring

/-- One `ProcessMouseScroll` call sets `Zoom` to `min 45 (max 1 (Zoom - yoffset))`. -/
theorem ProcessMouseScroll_Zoom (cam : Camera) (yoffset : ℝ) :
    (ProcessMouseScroll cam yoffset).Zoom = min 45 (max 1 (cam.Zoom - yoffset)) := by
  simp only [ProcessMouseScroll]
  split_ifs <;> simp [min_def, max_def] <;> split_ifs <;> linarith

/-- After any `ProcessMouseScroll` call the zoom lies in `[1, 45]`. -/
theorem ProcessMouseScroll_Zoom_mem (cam : Camera) (yoffset : ℝ) :
    1 ≤ (ProcessMouseScroll cam yoffset).Zoom ∧ (ProcessMouseScroll cam yoffset).Zoom ≤ 45 := by
  rw [ProcessMouseScroll_Zoom]
  exact ⟨le_min (by norm_num) (le_max_left 1 _), min_le_left _ _⟩

/-- Any sequence of scroll events keeps the zoom in `[1, 45]`. -/
theorem zoomSeq_mem (offs : List ℝ) :
    ∀ cam : Camera, 1 ≤ cam.Zoom → cam.Zoom ≤ 45 →
      1 ≤ (offs.foldl ProcessMouseScroll cam).Zoom ∧
        (offs.foldl ProcessMouseScroll cam).Zoom ≤ 45 := by
  induction offs with
  | nil => exact fun cam h1 h45 => ⟨h1, h45⟩
  | cons o os ih =>
    intro cam h1 h45
    simp only [List.foldl_cons]
    exact ih _ (ProcessMouseScroll_Zoom_mem cam o).1 (ProcessMouseScroll_Zoom_mem cam o).2

/-- C8: `ProcessMouseScroll` subtracts the offset from `Zoom` and clamps to
`[1, 45]`, and consequently any finite sequence of scroll calls keeps a zoom
that started in `[1, 45]` inside `[1, 45]`. -/
theorem camera_zoom_clamp (cam : Camera) (yoffset : ℝ) (offs : List ℝ)
    (h1 : 1 ≤ cam.Zoom) (h45 : cam.Zoom ≤ 45) :
    (ProcessMouseScroll cam yoffset).Zoom = min 45 (max 1 (cam.Zoom - yoffset)) ∧
      1 ≤ (offs.foldl ProcessMouseScroll cam).Zoom ∧
      (offs.foldl ProcessMouseScroll cam).Zoom ≤ 45 :=
  ⟨ProcessMouseScroll_Zoom cam yoffset, zoomSeq_mem offs cam h1 h45⟩

/-- Witness for `camera_zoom_clamp` on the default camera and one scroll of `100`. -/
theorem camera_zoom_clamp_witness :
    1 ≤ (mkCamera ⟨0, 0, 0⟩ ⟨0, 1, 0⟩ (-90) 0).Zoom ∧
      (mkCamera ⟨0, 0, 0⟩ ⟨0, 1, 0⟩ (-90) 0).Zoom ≤ 45 ∧
      ((ProcessMouseScroll (mkCamera ⟨0, 0, 0⟩ ⟨0, 1, 0⟩ (-90) 0) 100).Zoom =
          min 45 (max 1 ((mkCamera ⟨0, 0, 0⟩ ⟨0, 1, 0⟩ (-90) 0).Zoom - 100)) ∧
        1 ≤ (([100] : List ℝ).foldl ProcessMouseScroll
              (mkCamera ⟨0, 0, 0⟩ ⟨0, 1, 0⟩ (-90) 0)).Zoom ∧
        (([100] : List ℝ).foldl ProcessMouseScroll
              (mkCamera ⟨0, 0, 0⟩ ⟨0, 1, 0⟩ (-90) 0)).Zoom ≤ 45) := by
  have hz : (mkCamera ⟨0, 0, 0⟩ ⟨0, 1, 0⟩ (-90) 0).Zoom = 45 := by
    simp [mkCamera, updateCameraVectors, ZOOM]
  have h1 : 1 ≤ (mkCamera ⟨0, 0, 0⟩ ⟨0, 1, 0⟩ (-90) 0).Zoom := by rw [hz]; norm_num
  have h45 : (mkCamera ⟨0, 0, 0⟩ ⟨0, 1, 0⟩ (-90) 0).Zoom ≤ 45 := by rw [hz]
  exact ⟨h1, h45, camera_zoom_clamp _ 100 [100] h1 h45⟩

/-- A constrained `ProcessMouseMovement` call always leaves the pitch in `[-89, 89]`. -/
theorem ProcessMouseMovement_Pitch_mem (cam : Camera) (xoffset yoffset : ℝ) :
    -89 ≤ (ProcessMouseMovement cam xoffset yoffset true).Pitch ∧
      (ProcessMouseMovement cam xoffset yoffset true).Pitch ≤ 89 := by
  simp only [ProcessMouseMovement, updateCameraVectors]
  split_ifs <;> constructor <;> linarith

/-- Any sequence of constrained rotations keeps the pitch in `[-89, 89]`. -/
theorem pitchSeq_mem (offs : List (ℝ × ℝ)) :
    ∀ cam : Camera, -89 ≤ cam.Pitch → cam.Pitch ≤ 89 →
      -89 ≤ (offs.foldl (fun c p => ProcessMouseMovement c p.1 p.2 true) cam).Pitch ∧
        (offs.foldl (fun c p => ProcessMouseMovement c p.1 p.2 true) cam).Pitch ≤ 89 := by
  induction offs with
  | nil => exact fun cam h1 h2 => ⟨h1, h2⟩
  | cons o os ih =>
    intro cam h1 h2
    simp only [List.foldl_cons]
    exact ih _ (ProcessMouseMovement_Pitch_mem cam o.1 o.2).1
      (ProcessMouseMovement_Pitch_mem cam o.1 o.2).2

/-- C7: with `constrainPitch` set, any finite sequence of
`ProcessMouseMovement` calls with arbitrary offsets keeps a pitch that started
in `[-89, 89]` inside `[-89, 89]`: large positive offsets never drive it above
`89` and large negative offsets never drive it below `-89`. -/
theorem camera_pitch_clamp (cam : Camera) (offs : List (ℝ × ℝ))
    (h1 : -89 ≤ cam.Pitch) (h2 : cam.Pitch ≤ 89) :
    -89 ≤ (offs.foldl (fun c p => ProcessMouseMovement c p.1 p.2 true) cam).Pitch ∧
      (offs.foldl (fun c p => ProcessMouseMovement c p.1 p.2 true) cam).Pitch ≤ 89 :=
  pitchSeq_mem offs cam h1 h2

/-- Witness for `camera_pitch_clamp`: a huge upward swipe on the default
camera leaves the pitch within `[-89, 89]`. -/
theorem camera_pitch_clamp_witness :
    -89 ≤ (mkCamera ⟨0, 0, 0⟩ ⟨0, 1, 0⟩ (-90) 0).Pitch ∧
      (mkCamera ⟨0, 0, 0⟩ ⟨0, 1, 0⟩ (-90) 0).Pitch ≤ 89 ∧
      (-89 ≤ (([((0 : ℝ), (10000 : ℝ))]).foldl
            (fun c p => ProcessMouseMovement c p.1 p.2 true)
            (mkCamera ⟨0, 0, 0⟩ ⟨0, 1, 0⟩ (-90) 0)).Pitch ∧
        (([((0 : ℝ), (10000 : ℝ))]).foldl
            (fun c p => ProcessMouseMovement c p.1 p.2 true)
            (mkCamera ⟨0, 0, 0⟩ ⟨0, 1, 0⟩ (-90) 0)).Pitch ≤ 89) := by
  have hp : (mkCamera ⟨0, 0, 0⟩ ⟨0, 1, 0⟩ (-90) 0).Pitch = 0 := by
    simp [mkCamera, updateCameraVectors]
  have h1 : -89 ≤ (mkCamera ⟨0, 0, 0⟩ ⟨0, 1, 0⟩ (-90) 0).Pitch := by rw [hp]; norm_num
  have h2 : (mkCamera ⟨0, 0, 0⟩ ⟨0, 1, 0⟩ (-90) 0).Pitch ≤ 89 := by rw [hp]; norm_num
  exact ⟨h1, h2, camera_pitch_clamp _ [((0 : ℝ), (10000 : ℝ))] h1 h2⟩

/-! ### Concrete-angle evaluation lemmas -/

theorem radians_neg_ninety : radians (-90) = -(Real.pi / 2) := by
  unfold radians; ring

theorem radians_ninety : radians 90 = Real.pi / 2 := by
  unfold radians; ring

theorem radians_zero_eq : radians 0 = 0 := by
  unfold radians; ring

theorem frontVector_neg90_0 : frontVector (-90) 0 = ⟨0, 0, -1⟩ := by
  simp [frontVector, radians_neg_ninety, radians_zero_eq, Real.cos_pi_div_two,
    Real.sin_pi_div_two]

theorem frontVector_90_0 : frontVector 90 0 = ⟨0, 0, 1⟩ := by
  simp [frontVector, radians_ninety, radians_zero_eq, Real.cos_pi_div_two,
    Real.sin_pi_div_two]

theorem frontVector_0_0 : frontVector 0 0 = ⟨1, 0, 0⟩ := by
  simp [frontVector, radians_zero_eq]

/-- C9 (code bug): `ProcessKeyboard` with `FORWARD` displaces the position by
`2 * movementSpeed * deltaTime * Front` — the source adds `Front * velocity`
twice — so on the default camera (`movementSpeed = 2.5`, `deltaTime = 1`,
`Front = (0,0,-1)`) the observed displacement is `5 * Front`, not the
`2.5 * Front` the specification states. -/
theorem move_forward_double :
    (∀ (cam : Camera) (deltaTime : ℝ),
      (ProcessKeyboard cam Camera_Movement.FORWARD deltaTime).Position =
        Vec3.add cam.Position
          (Vec3.smul (2 * (cam.MovementSpeed * deltaTime)) cam.Front)) ∧
      (ProcessKeyboard (mkCamera ⟨0, 0, 0⟩ ⟨0, 1, 0⟩ (-90) 0) Camera_Movement.FORWARD
            1).Position ≠
        Vec3.add (mkCamera ⟨0, 0, 0⟩ ⟨0, 1, 0⟩ (-90) 0).Position
          (Vec3.smul ((mkCamera ⟨0, 0, 0⟩ ⟨0, 1, 0⟩ (-90) 0).MovementSpeed * 1)
            (mkCamera ⟨0, 0, 0⟩ ⟨0, 1, 0⟩ (-90) 0).Front) := by
  have hdouble : ∀ (cam : Camera) (deltaTime : ℝ),
      (ProcessKeyboard cam Camera_Movement.FORWARD deltaTime).Position =
        Vec3.add cam.Position
          (Vec3.smul (2 * (cam.MovementSpeed * deltaTime)) cam.Front) := by
    intro cam deltaTime
    simp only [ProcessKeyboard, Vec3.add, Vec3.smul, Vec3.mk.injEq]
    refine ⟨by ring, by ring, by ring⟩
  refine ⟨hdouble, ?_⟩
  have hF : (mkCamera ⟨0, 0, 0⟩ ⟨0, 1, 0⟩ (-90) 0).Front = ⟨0, 0, -1⟩ := by
    have h1 : Vec3.normSq (⟨0, 0, -1⟩ : Vec3) = 1 := by
      simp [Vec3.normSq, Vec3.dot]
    simp only [mkCamera, updateCameraVectors]
    rw [frontVector_neg90_0]
    exact Vec3.normalize_of_normSq_one _ h1
  have hP : (mkCamera ⟨0, 0, 0⟩ ⟨0, 1, 0⟩ (-90) 0).Position = ⟨0, 0, 0⟩ := by
    simp [mkCamera, updateCameraVectors]
  have hS : (mkCamera ⟨0, 0, 0⟩ ⟨0, 1, 0⟩ (-90) 0).MovementSpeed = 2.5 := by
    simp [mkCamera, updateCameraVectors, SPEED]
  intro heq
  rw [hdouble, hF, hP, hS] at heq
  have hz := congrArg Vec3.z heq
  simp [Vec3.add, Vec3.smul] at hz
  norm_num at hz

/-- Orthonormal right-handed camera basis in the convention the code
establishes: three unit vectors, mutually orthogonal, with
`Up = Right × Front`. -/
def orthonormalRH (front right up : Vec3) : Prop :=
  Vec3.normSq front = 1 ∧ Vec3.normSq right = 1 ∧ Vec3.normSq up = 1 ∧
    Vec3.dot front right = 0 ∧ Vec3.dot front up = 0 ∧ Vec3.dot right up = 0 ∧
    up = Vec3.cross right front

/-- Core geometric fact behind `updateCameraVectors`: from a unit front vector
not parallel to the world up, the recipe `right = normalize(front × worldUp)`,
`up = normalize(right × front)` yields an orthonormal right-handed basis. -/
theorem basis_orthonormal (fv wu : Vec3) (hfv1 : Vec3.normSq fv = 1)
    (h : Vec3.cross fv wu ≠ ⟨0, 0, 0⟩) :
    orthonormalRH fv (Vec3.normalize (Vec3.cross fv wu))
      (Vec3.normalize (Vec3.cross (Vec3.normalize (Vec3.cross fv wu)) fv)) := by
  have hcr0 : Vec3.normSq (Vec3.cross fv wu) ≠ 0 := fun h0 =>
    h ((Vec3.normSq_eq_zero_iff _).mp h0)
  set r := Vec3.normalize (Vec3.cross fv wu) with hrdef
  have hr1 : Vec3.normSq r = 1 := Vec3.normSq_normalize _ hcr0
  have hdot_fr : Vec3.dot fv r = 0 := by
    rw [Vec3.dot_comm, hrdef, Vec3.normalize_eq_smul, Vec3.dot_smul_left,
      Vec3.dot_cross_left, mul_zero]
  have hdot_rf : Vec3.dot r fv = 0 := by rw [Vec3.dot_comm]; exact hdot_fr
  have hup1 : Vec3.normSq (Vec3.cross r fv) = 1 := by
    rw [Vec3.normSq_cross, hr1, hfv1, hdot_rf]
    norm_num
  have hu_eq : Vec3.normalize (Vec3.cross r fv) = Vec3.cross r fv :=
    Vec3.normalize_of_normSq_one _ hup1
  refine ⟨hfv1, hr1, ?_, hdot_fr, ?_, ?_, hu_eq⟩
  · rw [hu_eq]; exact hup1
  · rw [hu_eq, Vec3.dot_comm]; exact Vec3.dot_cross_right r fv
  · rw [hu_eq, Vec3.dot_comm]; exact Vec3.dot_cross_left r fv

/-- `updateCameraVectors` establishes the orthonormal right-handed basis
whenever the recomputed front vector is not parallel to `WorldUp`. -/
theorem updateCameraVectors_orthonormal (cam : Camera)
    (h : Vec3.cross (frontVector cam.Yaw cam.Pitch) cam.WorldUp ≠ ⟨0, 0, 0⟩) :
    orthonormalRH (updateCameraVectors cam).Front (updateCameraVectors cam).Right
      (updateCameraVectors cam).Up := by
  have hy := Real.sin_sq_add_cos_sq (radians cam.Yaw)
  have hp := Real.sin_sq_add_cos_sq (radians cam.Pitch)
  have hfv1 : Vec3.normSq (frontVector cam.Yaw cam.Pitch) = 1 := by
    simp only [frontVector, Vec3.normSq, Vec3.dot]
    nlinarith [hy, hp]
  have hFn : Vec3.normalize (frontVector cam.Yaw cam.Pitch)
      = frontVector cam.Yaw cam.Pitch :=
    Vec3.normalize_of_normSq_one _ hfv1
  have hFront : (updateCameraVectors cam).Front = frontVector cam.Yaw cam.Pitch := by
    simp only [updateCameraVectors]
    exact hFn
  have hRight : (updateCameraVectors cam).Right =
      Vec3.normalize (Vec3.cross (frontVector cam.Yaw cam.Pitch) cam.WorldUp) := by
    simp only [updateCameraVectors, hFn]
  have hUp : (updateCameraVectors cam).Up =
      Vec3.normalize (Vec3.cross
        (Vec3.normalize (Vec3.cross (frontVector cam.Yaw cam.Pitch) cam.WorldUp))
        (frontVector cam.Yaw cam.Pitch)) := by
    simp only [updateCameraVectors, hFn]
  rw [hFront, hRight, hUp]
  exact basis_orthonormal _ _ hfv1 h

/-- C6 (amended): after a `ProcessMouseMovement` call whose recomputed front
vector is not parallel to `WorldUp`, the camera's `Front`, `Right`, `Up` are
mutually orthogonal unit vectors with `Up = Right × Front`. -/
theorem camera_rotate_orthonormal (cam : Camera) (xoffset yoffset : ℝ)
    (constrainPitch : Bool)
    (h : Vec3.cross
        (frontVector (ProcessMouseMovement cam xoffset yoffset constrainPitch).Yaw
          (ProcessMouseMovement cam xoffset yoffset constrainPitch).Pitch)
        (ProcessMouseMovement cam xoffset yoffset constrainPitch).WorldUp ≠ ⟨0, 0, 0⟩) :
    orthonormalRH (ProcessMouseMovement cam xoffset yoffset constrainPitch).Front
      (ProcessMouseMovement cam xoffset yoffset constrainPitch).Right
      (ProcessMouseMovement cam xoffset yoffset constrainPitch).Up := by
  obtain ⟨cam2, hcam2⟩ : ∃ cam2, ProcessMouseMovement cam xoffset yoffset constrainPitch
      = updateCameraVectors cam2 := ⟨_, rfl⟩
  rw [hcam2] at h ⊢
  have hYaw : (updateCameraVectors cam2).Yaw = cam2.Yaw := by simp [updateCameraVectors]
  have hPitch : (updateCameraVectors cam2).Pitch = cam2.Pitch := by simp [updateCameraVectors]
  have hWU : (updateCameraVectors cam2).WorldUp = cam2.WorldUp := by simp [updateCameraVectors]
  rw [hYaw, hPitch, hWU] at h
  exact updateCameraVectors_orthonormal cam2 h

theorem camera_rotate_orthonormal_witness :
    Vec3.cross
        (frontVector (ProcessMouseMovement (mkCamera ⟨0, 0, 0⟩ ⟨0, 1, 0⟩ (-90) 0) 0 0 true).Yaw
          (ProcessMouseMovement (mkCamera ⟨0, 0, 0⟩ ⟨0, 1, 0⟩ (-90) 0) 0 0 true).Pitch)
        (ProcessMouseMovement (mkCamera ⟨0, 0, 0⟩ ⟨0, 1, 0⟩ (-90) 0) 0 0 true).WorldUp
        ≠ ⟨0, 0, 0⟩ ∧
      orthonormalRH (ProcessMouseMovement (mkCamera ⟨0, 0, 0⟩ ⟨0, 1, 0⟩ (-90) 0) 0 0 true).Front
        (ProcessMouseMovement (mkCamera ⟨0, 0, 0⟩ ⟨0, 1, 0⟩ (-90) 0) 0 0 true).Right
        (ProcessMouseMovement (mkCamera ⟨0, 0, 0⟩ ⟨0, 1, 0⟩ (-90) 0) 0 0 true).Up := by
  have hY : (ProcessMouseMovement (mkCamera ⟨0, 0, 0⟩ ⟨0, 1, 0⟩ (-90) 0) 0 0 true).Yaw = -90 := by
    norm_num [ProcessMouseMovement, updateCameraVectors, mkCamera, SENSITIVITY]
  have hPt : (ProcessMouseMovement (mkCamera ⟨0, 0, 0⟩ ⟨0, 1, 0⟩ (-90) 0) 0 0 true).Pitch = 0 := by
    norm_num [ProcessMouseMovement, updateCameraVectors, mkCamera, SENSITIVITY]
  have hWU : (ProcessMouseMovement (mkCamera ⟨0, 0, 0⟩ ⟨0, 1, 0⟩ (-90) 0) 0 0 true).WorldUp
      = ⟨0, 1, 0⟩ := by
    simp [ProcessMouseMovement, updateCameraVectors, mkCamera]
  have h : Vec3.cross
      (frontVector (ProcessMouseMovement (mkCamera ⟨0, 0, 0⟩ ⟨0, 1, 0⟩ (-90) 0) 0 0 true).Yaw
        (ProcessMouseMovement (mkCamera ⟨0, 0, 0⟩ ⟨0, 1, 0⟩ (-90) 0) 0 0 true).Pitch)
      (ProcessMouseMovement (mkCamera ⟨0, 0, 0⟩ ⟨0, 1, 0⟩ (-90) 0) 0 0 true).WorldUp
      ≠ ⟨0, 0, 0⟩ := by
    rw [hY, hPt, hWU, frontVector_neg90_0]
    simp [Vec3.cross, Vec3.mk.injEq]
  exact ⟨h, camera_rotate_orthonormal (mkCamera ⟨0, 0, 0⟩ ⟨0, 1, 0⟩ (-90) 0) 0 0 true h⟩

theorem camera_rotate_orthonormal_counterexample :
    Vec3.cross (mkCamera ⟨0, 0, 0⟩ ⟨1, 0, 0⟩ 90 0).Front
        (mkCamera ⟨0, 0, 0⟩ ⟨1, 0, 0⟩ 90 0).WorldUp ≠ ⟨0, 0, 0⟩ ∧
      Vec3.normSq (ProcessMouseMovement (mkCamera ⟨0, 0, 0⟩ ⟨1, 0, 0⟩ 90 0)
          (-900) 0 true).Right ≠ 1 := by
  constructor
  · have hF : (mkCamera ⟨0, 0, 0⟩ ⟨1, 0, 0⟩ 90 0).Front = ⟨0, 0, 1⟩ := by
      have h1 : Vec3.normSq (⟨0, 0, 1⟩ : Vec3) = 1 := by simp [Vec3.normSq, Vec3.dot]
      simp only [mkCamera, updateCameraVectors]
      rw [frontVector_90_0]
      exact Vec3.normalize_of_normSq_one _ h1
    have hW : (mkCamera ⟨0, 0, 0⟩ ⟨1, 0, 0⟩ 90 0).WorldUp = ⟨1, 0, 0⟩ := by
      simp [mkCamera, updateCameraVectors]
    rw [hF, hW]
    simp [Vec3.cross, Vec3.mk.injEq]
  · norm_num [ProcessMouseMovement, updateCameraVectors, mkCamera, SENSITIVITY,
      frontVector, radians, Vec3.normalize, Vec3.length, Vec3.normSq, Vec3.dot,
      Vec3.smul, Vec3.cross, Real.sqrt_zero, Real.sqrt_one, Real.cos_zero, Real.sin_zero]
